import Mathlib

/-!
Verification development for the PRISM repository (two Python scripts:
`benchmarks/bm-analysis.py`, a Slurm benchmark driver, and
`train_cnn/tf2-train-cnn-cifar-v1.py`, a CNN training runner).

Strings are shallowly embedded as `List Char`; Python `str.replace`,
`str.find`, `re.finditer` counting, `float(...)` parsing and `str(int)`
rendering are modelled by executable Lean functions below.  Stateful or
effectful code (file writes, `sbatch` submission, the training pipeline)
is modelled by explicit effect/event traces and `Except` for raised
exceptions.
-/

deriving instance DecidableEq for Except

namespace PRISM

/-! ### String utilities (models of Python `str` operations) -/

/-- Characters that can occur in Python's `str(int)`: decimal digits and the minus sign. -/
def isNumChar (c : Char) : Bool := c.isDigit || c == '-'

/-- Model of Python `pat in s` / `s.find(pat) != -1`: does `pat` occur as a
contiguous substring of `s`?  (For empty `pat` this is `true`, as in Python.) -/
def containsSub (pat : List Char) : List Char → Bool
  | [] => pat.isEmpty
  | c :: rest => pat.isPrefixOf (c :: rest) || containsSub pat rest

/-- Number of positions of `s` at which `pat` occurs (occurrences may overlap). -/
def countOcc (pat : List Char) : List Char → Nat
  | [] => 0
  | c :: rest => (if pat.isPrefixOf (c :: rest) then 1 else 0) + countOcc pat rest

/-- Fuel-indexed worker for `countNO`.  The fuel argument only serves to make the
recursion structural; any fuel at least `s.length` gives the same answer. -/
def countNOF (pat : List Char) : Nat → List Char → Nat
  | _, [] => 0
  | 0, _ => 0
  | fuel+1, c :: rest =>
    if pat ≠ [] ∧ pat.isPrefixOf (c :: rest) then
      1 + countNOF pat fuel ((c :: rest).drop pat.length)
    else countNOF pat fuel rest

/-- Model of counting `re.finditer(pat, s)` matches for a literal pattern:
the number of non-overlapping occurrences of `pat` in `s`, scanning left to right. -/
def countNO (pat s : List Char) : Nat := countNOF pat s.length s

/-- Fuel-indexed worker for `replaceAll`; fuel at least `s.length` gives the
stable answer. -/
def replaceAllF (pat rep : List Char) : Nat → List Char → List Char
  | _, [] => []
  | 0, s => s
  | fuel+1, c :: rest =>
    if pat ≠ [] ∧ pat.isPrefixOf (c :: rest) then
      rep ++ replaceAllF pat rep fuel ((c :: rest).drop pat.length)
    else c :: replaceAllF pat rep fuel rest

/-- Model of Python `s.replace(pat, rep)` for a non-empty `pat`: replaces every
non-overlapping occurrence of `pat` by `rep`, left to right, without rescanning
the replacement text. -/
def replaceAll (pat rep s : List Char) : List Char := replaceAllF pat rep s.length s

/-- Fuel-indexed worker producing the decimal digits of a natural number. -/
def natDigitsF : Nat → Nat → List Char
  | 0, _ => []
  | fuel+1, n =>
    if n < 10 then [Nat.digitChar n]
    else natDigitsF fuel (n / 10) ++ [Nat.digitChar (n % 10)]

/-- Decimal digit string of a natural number (`str(n)` for `n ≥ 0`). -/
def natDigits (n : Nat) : List Char := natDigitsF (n + 1) n

/-- Model of Python `str(n)` for an integer `n`. -/
def strOfInt (n : Int) : List Char :=
  if n < 0 then '-' :: natDigits (-n).toNat else natDigits n.toNat

/-- Numeric value of a list of decimal digit characters. -/
def digitsVal (s : List Char) : Nat :=
  s.foldl (fun a c => 10 * a + (c.toNat - '0'.toNat)) 0

/-- A Python float value, modelled as the exact decimal `num / 10 ^ exp`.
The program only ever parses decimal literals and compares the results with
the integer sentinel `-1`, so exact decimals are an adequate value domain. -/
structure PyFloat where
  num : Int
  exp : Nat
deriving DecidableEq

/-- Value equality of two decimals (`a.num / 10^a.exp = b.num / 10^b.exp`),
by cross-multiplication; this models Python float `==`. -/
def PyFloat.eqv (a b : PyFloat) : Bool :=
  a.num * (10 : Int) ^ b.exp == b.num * (10 : Int) ^ a.exp

/-- The float value of the Python int literal `-1` (the sentinel in the source). -/
def negOne : PyFloat := ⟨-1, 0⟩

/-- Model of Python `float(s)` on plain decimal literals (optional sign, integer
part, optional fractional part): returns `none` where `float` would raise
`ValueError`.  Exponents and special values are outside the inputs that occur here. -/
def parseDec (s : List Char) : Option PyFloat :=
  let signAndRest : Int × List Char :=
    match s with
    | '-' :: r => (-1, r)
    | '+' :: r => (1, r)
    | _ => (1, s)
  let sign := signAndRest.1
  let s1 := signAndRest.2
  let ip := s1.takeWhile Char.isDigit
  let r1 := s1.dropWhile Char.isDigit
  match r1 with
  | [] => if ip = [] then none else some ⟨sign * (digitsVal ip : Int), 0⟩
  | '.' :: r2 =>
    let fp := r2.takeWhile Char.isDigit
    let r3 := r2.dropWhile Char.isDigit
    if r3 = [] ∧ (ip ≠ [] ∨ fp ≠ []) then
      some ⟨sign * ((digitsVal ip : Int) * (10 : Int) ^ fp.length + (digitsVal fp : Int)), fp.length⟩
    else none
  | _ => none

/-- Join a list of lines with newline separators (no trailing newline). -/
def joinNL : List (List Char) → List Char
  | [] => []
  | [l] => l
  | l :: ls => l ++ '\n' :: joinNL ls

/-! ### Benchmark orchestrator (`benchmarks/bm-analysis.py`) -/

/-- The placeholder token `[|{CPUS}|]` of the benchmark script template. -/
def cpus_token : List Char := "[|\x7bCPUS\x7d|]".data

/-- The placeholder token `[|{PARTITION}|]` of the benchmark script template. -/
def partition_token : List Char := "[|\x7bPARTITION\x7d|]".data

/-- Template text before the CPUS token. -/
def template_head : List Char := "#!/bin/sh\nsbatch cpus=".data

/-- Template text between the two tokens. -/
def template_mid : List Char := " part=".data

/-- Template text after the PARTITION token. -/
def template_tail : List Char := "\nend\n".data

/-- Modelled from the spec: the template file
`cpu_benchmarks/tf2-train-cnn-cifar-v1-bm-template.sh` is repository content
that is not under `src/`.  The spec describes it as a shell-script template
containing the two placeholder tokens `[|{CPUS}|]` and `[|{PARTITION}|]`;
we model it as shell text containing each token exactly once. -/
def template_model : List Char :=
  template_head ++ cpus_token ++ template_mid ++ partition_token ++ template_tail

/-- Contents written by `create_benchmark(cpus, partition)`: the template with
`[|{CPUS}|]` replaced by `str(cpus)` and then `[|{PARTITION}|]` replaced by
`partition` (two successive Python `str.replace` calls). -/
def create_benchmark (cpus : Int) (partition : List Char) : List Char :=
  replaceAll partition_token partition (replaceAll cpus_token (strOfInt cpus) template_model)

/-- Path of the template file read by `create_benchmark`. -/
def template_path : String := "cpu_benchmarks/tf2-train-cnn-cifar-v1-bm-template.sh"

/-- Path of the script file written by `create_benchmark` for a CPU count. -/
def script_path (cpus : Int) : String :=
  "cpu_benchmarks/tf2-train-cnn-cifar-v1-bm-" ++ String.mk (strOfInt cpus) ++ ".sh"

/-- External side effects performed by `run_benchmark`. -/
inductive BMEffect where
  | read_template (path : String)
  | write_script (path : String) (contents : List Char)
  | submit_job (path : String)
  | echo_line (s : List Char)
deriving DecidableEq

/-- Effect trace of `run_benchmark(cpus, args, partition)`: a no-op when
`cpus > args.max_cpus_per_task`, otherwise it reads the template, writes the
generated script, submits it via `sbatch`, and echoes the CPU count. -/
def run_benchmark (cpus max_cpus_per_task : Int) (partition : List Char)
    (submit_dir : String) : List BMEffect :=
  if cpus > max_cpus_per_task then []
  else
    [BMEffect.read_template template_path,
     BMEffect.write_script (script_path cpus) (create_benchmark cpus partition),
     BMEffect.submit_job (submit_dir ++ "/" ++ script_path cpus),
     BMEffect.echo_line (strOfInt cpus)]

/-- The job `(cpus, partition)` submitted by `run_benchmark`, if any. -/
def run_benchmark_submits (cpus max_cpus_per_task : Int) (partition : String) :
    List (Int × String) :=
  if cpus > max_cpus_per_task then [] else [(cpus, partition)]

/-- The jobs submitted by `main`'s sweep starting from CPU count `cpus`:
`while cpus < max: run_benchmark(cpus, args); cpus += 16`, followed by
`if cpus == max: run_benchmark(cpus, args, partition="compute")`. -/
def main_sweep (cpus max_cpus_per_task : Int) : List (Int × String) :=
  if cpus < max_cpus_per_task then
    run_benchmark_submits cpus max_cpus_per_task "shared" ++
      main_sweep (cpus + 16) max_cpus_per_task
  else if cpus = max_cpus_per_task then
    run_benchmark_submits cpus max_cpus_per_task "compute"
  else []
termination_by (max_cpus_per_task - cpus).toNat
decreasing_by omega

/-- The jobs submitted by `main` (the sweep starts at CPU count 32). -/
def main_jobs (max_cpus_per_task : Int) : List (Int × String) :=
  main_sweep 32 max_cpus_per_task

/-- Number of iterations performed by the sweep loop from `cpus`. -/
def sweep_steps (cpus max_cpus_per_task : Int) : Nat :=
  (max_cpus_per_task - cpus + 15).toNat / 16

/-- Specification-shaped description of the sweep (from the claim's words):
CPU counts starting at `cpus` and increasing by 16 while strictly below the
max, each on partition "shared", plus one job on "compute" at the max exactly
when the count after the loop equals the max. -/
def main_sweep_spec (cpus max_cpus_per_task : Int) : List (Int × String) :=
  ((List.range (sweep_steps cpus max_cpus_per_task)).map
      (fun i : Nat => (cpus + 16 * (i : Int), "shared"))) ++
    (if cpus + 16 * (sweep_steps cpus max_cpus_per_task : Int) = max_cpus_per_task then
      [(max_cpus_per_task, "compute")]
    else [])

/-- The job-name substring counted by `countbmsrunning`. -/
def bm_name : List Char := "tf2-train-cnn".data

/-- Model of `countbmsrunning()`: the number of `re.finditer("tf2-train-cnn", ...)`
matches (non-overlapping occurrences) in the queue listing. -/
def countbmsrunning (listing : List Char) : Nat := countNO bm_name listing

/-! #### Timing extraction from job output files -/

/-- The marker searched via `line.find("real ")`. -/
def real_marker : List Char := "real ".data

/-- The marker searched via `line.find("sys ")`. -/
def sys_marker : List Char := "sys ".data

/-- The marker searched via `line.find("user ")`. -/
def user_marker : List Char := "user ".data

/-- The three timing accumulators of the extraction loop. -/
structure TimAcc where
  realnum : PyFloat
  sysnum : PyFloat
  usernum : PyFloat
deriving DecidableEq

/-- `line.replace(marker, "").replace("\n", "")`, the string passed to `float`. -/
def clean_line (marker line : List Char) : List Char :=
  replaceAll ['\n'] [] (replaceAll marker [] line)

/-- `float(clean_line)`, as an `Except`: `ValueError` is a raised exception. -/
def parse_field (s : List Char) : Except String PyFloat :=
  match parseDec s with
  | some q => Except.ok q
  | none => Except.error "ValueError: could not convert string to float"

/-- One iteration of the `for line in file` loop: each of the three markers, if
found in the line, reassigns the corresponding accumulator to the parsed value. -/
def process_line (acc : TimAcc) (line : List Char) : Except String TimAcc :=
  match (if containsSub real_marker line then parse_field (clean_line real_marker line)
         else Except.ok acc.realnum) with
  | Except.error e => Except.error e
  | Except.ok r =>
    match (if containsSub sys_marker line then parse_field (clean_line sys_marker line)
           else Except.ok acc.sysnum) with
    | Except.error e => Except.error e
    | Except.ok s =>
      match (if containsSub user_marker line then parse_field (clean_line user_marker line)
             else Except.ok acc.usernum) with
      | Except.error e => Except.error e
      | Except.ok u => Except.ok ⟨r, s, u⟩

/-- The whole `for line in file` loop over the lines of one output file. -/
def run_lines (acc : TimAcc) : List (List Char) → Except String TimAcc
  | [] => Except.ok acc
  | l :: ls =>
    match process_line acc l with
    | Except.error e => Except.error e
    | Except.ok acc1 => run_lines acc1 ls

/-- Timing extraction for one job output file: the accumulators start at the
sentinel `-1`; after the loop, a triple is produced (and hence a CSV row
written for the job) only when all three accumulators differ from `-1`. -/
def extract_timing (lines : List (List Char)) : Except String (Option (PyFloat × PyFloat × PyFloat)) :=
  match run_lines ⟨negOne, negOne, negOne⟩ lines with
  | Except.error e => Except.error e
  | Except.ok acc =>
    Except.ok
      (if acc.realnum.eqv negOne = false ∧ acc.sysnum.eqv negOne = false ∧
          acc.usernum.eqv negOne = false then
        some (acc.realnum, acc.sysnum, acc.usernum)
      else none)

/-- Whether a CSV row is written for a job whose output file has these lines. -/
def row_written (lines : List (List Char)) : Bool :=
  match extract_timing lines with
  | Except.ok (some _) => true
  | _ => false

/-! ### Training runner (`train_cnn/tf2-train-cnn-cifar-v1.py`) -/

/-- The parsed command-line arguments of the training runner. -/
structure TrainArgs where
  classes : Nat
  precision : String
  epochs : Nat
  batch_size : Nat
  accelerator : String
  num_workers : Nat
  model_file : String
  save_model : String
deriving DecidableEq

/-- The shapes of the four arrays returned by the external dataset loader. -/
structure DataShapes where
  x_train : List Nat
  y_train : List Nat
  x_test : List Nat
  y_test : List Nat
deriving DecidableEq

/-- The shapes the four `assert` statements in `create_datasets` require. -/
def expected_shapes : DataShapes :=
  ⟨[50000, 32, 32, 3], [50000, 1], [10000, 32, 32, 3], [10000, 1]⟩

/-- Model of `create_datasets(classes, dtype)`: the loaded arrays (whose shapes
are the external input `loaded`) must pass the four shape asserts, in source
order, before the two datasets are constructed and returned.  The asserts do
not depend on `classes`. -/
def create_datasets (classes : Nat) (loaded : DataShapes) :
    Except String ((List Nat × List Nat) × (List Nat × List Nat)) :=
  if loaded.x_train ≠ [50000, 32, 32, 3] then Except.error "AssertionError: x_train.shape"
  else if loaded.y_train ≠ [50000, 1] then Except.error "AssertionError: y_train.shape"
  else if loaded.x_test ≠ [10000, 32, 32, 3] then Except.error "AssertionError: x_test.shape"
  else if loaded.y_test ≠ [10000, 1] then Except.error "AssertionError: y_test.shape"
  else Except.ok ((loaded.x_train, loaded.y_train), (loaded.x_test, loaded.y_test))

/-- The four on-disk formats the save code can produce. -/
inductive SaveFormat where
  | tf
  | h5
  | keras
  | onnx
deriving DecidableEq

/-- Model of the save branch at the end of `main`: it tests `args.model_file`
(not `args.save_model`) and selects the format and file name accordingly. -/
def save_branch (args : TrainArgs) : SaveFormat × String :=
  if args.model_file = "tf" then (SaveFormat.tf, "model_tf")
  else if args.model_file = "h5" then (SaveFormat.h5, "model_tf.h5")
  else if args.model_file = "keras" then (SaveFormat.keras, "model_tf.keras")
  else (SaveFormat.onnx, "model_tf.onnx")

/-- Model of the accelerator resolution at the top of `create_model`: `"auto"`
is replaced by the first of GPU, HPU, TPU whose physical device list (the
external `avail`) is non-empty, else CPU. -/
def resolve_accelerator (acc : String) (avail : String → Bool) : String :=
  if acc = "auto" then
    if avail "GPU" then "GPU"
    else if avail "HPU" then "HPU"
    else if avail "TPU" then "TPU"
    else "CPU"
  else acc

/-- Model of Python `s.upper()` (ASCII). -/
def upperStr (s : String) : String := String.mk (s.data.map Char.toUpper)

/-- The accelerator string `create_model` ends up using: the resolved value,
then unconditionally uppercased (`args.accelerator = args.accelerator.upper()`). -/
def create_model_accelerator (acc : String) (avail : String → Bool) : String :=
  upperStr (resolve_accelerator acc avail)

/-- Number of required positional parameters of `def create_model(classes, args)`. -/
def create_model_param_count : Nat := 2

/-- Number of arguments supplied at `main`'s call site `create_model(classes)`. -/
def main_create_model_arg_count : Nat := 1

/-- The exception Python raises when a call supplies fewer positional arguments
than the callee requires. -/
def type_error_msg : String :=
  "TypeError: create_model() missing 1 required positional argument: args"

/-- Observable milestones of one run of the training runner's `main`. -/
inductive TrainEvent where
  | load_data
  | load_model
  | create_model_attempt
  | fit
  | evaluate
  | save
deriving DecidableEq

/-- Model of the training runner's `main`: create the datasets (shape asserts
may raise), then either load a pre-existing model (when `--model_file` is
non-empty) or attempt `create_model(classes)` — which raises a `TypeError`
because the call supplies fewer arguments than the definition requires — and
only then fit, evaluate and save.  The result is the list of milestones
reached, together with the uncaught exception, if any. -/
def main_run (args : TrainArgs) (loaded : DataShapes) : List TrainEvent × Option String :=
  match create_datasets args.classes loaded with
  | Except.error e => ([TrainEvent.load_data], some e)
  | Except.ok _ =>
    if args.model_file ≠ "" then
      ([TrainEvent.load_data, TrainEvent.load_model, TrainEvent.fit,
        TrainEvent.evaluate, TrainEvent.save], none)
    else if main_create_model_arg_count = create_model_param_count then
      ([TrainEvent.load_data, TrainEvent.create_model_attempt, TrainEvent.fit,
        TrainEvent.evaluate, TrainEvent.save], none)
    else ([TrainEvent.load_data, TrainEvent.create_model_attempt], some type_error_msg)

/-! ### Basic lemmas about the string-operation models -/

theorem countNOF_nil (pat : List Char) (f : Nat) : countNOF pat f [] = 0 := by
  cases f <;> rfl

theorem replaceAllF_nil (pat rep : List Char) (f : Nat) : replaceAllF pat rep f [] = [] := by
  cases f <;> rfl

theorem countNOF_fuel (pat : List Char) :
    ∀ (f g : Nat) (s : List Char), s.length ≤ f → s.length ≤ g →
      countNOF pat f s = countNOF pat g s := by
  intro f
  induction f with
  | zero =>
    intro g s hf _
    have hs : s = [] := List.length_eq_zero.mp (Nat.le_zero.mp hf)
    subst hs
    simp [countNOF_nil]
  | succ f ih =>
    intro g s hf hg
    cases s with
    | nil => simp [countNOF_nil]
    | cons c rest =>
      cases g with
      | zero => exact absurd hg (by simp)
      | succ g =>
        have hplen : pat ≠ [] → 1 ≤ pat.length := fun h => List.length_pos.mpr h
        simp only [countNOF]
        by_cases h : pat ≠ [] ∧ pat.isPrefixOf (c :: rest) = true
        · rw [if_pos h, if_pos h]
          have h1 : 1 ≤ pat.length := hplen h.1
          congr 1
          apply ih
          · simp only [List.length_drop, List.length_cons] at *
            omega
          · simp only [List.length_drop, List.length_cons] at *
            omega
        · rw [if_neg h, if_neg h]
          apply ih <;> (simp only [List.length_cons] at hf hg; omega)

theorem replaceAllF_fuel (pat rep : List Char) :
    ∀ (f g : Nat) (s : List Char), s.length ≤ f → s.length ≤ g →
      replaceAllF pat rep f s = replaceAllF pat rep g s := by
  intro f
  induction f with
  | zero =>
    intro g s hf _
    have hs : s = [] := List.length_eq_zero.mp (Nat.le_zero.mp hf)
    subst hs
    simp [replaceAllF_nil]
  | succ f ih =>
    intro g s hf hg
    cases s with
    | nil => simp [replaceAllF_nil]
    | cons c rest =>
      cases g with
      | zero => exact absurd hg (by simp)
      | succ g =>
        have hplen : pat ≠ [] → 1 ≤ pat.length := fun h => List.length_pos.mpr h
        simp only [replaceAllF]
        by_cases h : pat ≠ [] ∧ pat.isPrefixOf (c :: rest) = true
        · rw [if_pos h, if_pos h]
          have h1 : 1 ≤ pat.length := hplen h.1
          congr 1
          apply ih
          · simp only [List.length_drop, List.length_cons] at *
            omega
          · simp only [List.length_drop, List.length_cons] at *
            omega
        · rw [if_neg h, if_neg h]
          congr 1
          apply ih <;> (simp only [List.length_cons] at hf hg; omega)

theorem countNO_nil (pat : List Char) : countNO pat [] = 0 := rfl

theorem countNO_cons_pos {pat : List Char} (c : Char) (rest : List Char)
    (h1 : pat ≠ []) (h2 : pat.isPrefixOf (c :: rest) = true) :
    countNO pat (c :: rest) = 1 + countNO pat ((c :: rest).drop pat.length) := by
  have hp : 1 ≤ pat.length := List.length_pos.mpr h1
  show countNOF pat (rest.length + 1) (c :: rest) = _
  simp only [countNOF, if_pos (And.intro h1 h2)]
  congr 1
  apply countNOF_fuel
  · simp only [List.length_drop, List.length_cons]
    omega
  · exact le_rfl

theorem countNO_cons_neg {pat : List Char} (c : Char) (rest : List Char)
    (h : ¬(pat ≠ [] ∧ pat.isPrefixOf (c :: rest) = true)) :
    countNO pat (c :: rest) = countNO pat rest := by
  show countNOF pat (rest.length + 1) (c :: rest) = _
  simp only [countNOF, if_neg h]
  rfl

theorem countNO_cons_head_ne {p : Char} {pr : List Char} (c : Char) (rest : List Char)
    (hne : p ≠ c) : countNO (p :: pr) (c :: rest) = countNO (p :: pr) rest := by
  apply countNO_cons_neg
  rintro ⟨-, hpre⟩
  have h := List.isPrefixOf_iff_prefix.mp hpre
  rw [List.cons_prefix_cons] at h
  exact hne h.1

theorem replaceAll_nil (pat rep : List Char) : replaceAll pat rep [] = [] := rfl

theorem replaceAll_cons_pos {pat : List Char} (rep : List Char) (c : Char) (rest : List Char)
    (h1 : pat ≠ []) (h2 : pat.isPrefixOf (c :: rest) = true) :
    replaceAll pat rep (c :: rest) = rep ++ replaceAll pat rep ((c :: rest).drop pat.length) := by
  have hp : 1 ≤ pat.length := List.length_pos.mpr h1
  show replaceAllF pat rep (rest.length + 1) (c :: rest) = _
  simp only [replaceAllF, if_pos (And.intro h1 h2)]
  congr 1
  apply replaceAllF_fuel
  · simp only [List.length_drop, List.length_cons]
    omega
  · exact le_rfl

theorem replaceAll_cons_neg {pat : List Char} (rep : List Char) (c : Char) (rest : List Char)
    (h : ¬(pat ≠ [] ∧ pat.isPrefixOf (c :: rest) = true)) :
    replaceAll pat rep (c :: rest) = c :: replaceAll pat rep rest := by
  show replaceAllF pat rep (rest.length + 1) (c :: rest) = _
  simp only [replaceAllF, if_neg h]
  rfl

theorem replaceAll_cons_head_ne {p : Char} {pr : List Char} (rep : List Char) (c : Char)
    (rest : List Char) (hne : p ≠ c) :
    replaceAll (p :: pr) rep (c :: rest) = c :: replaceAll (p :: pr) rep rest := by
  apply replaceAll_cons_neg
  rintro ⟨-, hpre⟩
  have h := List.isPrefixOf_iff_prefix.mp hpre
  rw [List.cons_prefix_cons] at h
  exact hne h.1

/-! ### Prefix and occurrence-counting lemmas -/

theorem prefix_of_prefix_append {pat X Y : List Char} (h : pat <+: X ++ Y)
    (hl : pat.length ≤ X.length) : pat <+: X := by
  obtain ⟨t, ht⟩ := h
  have h1 : (X ++ Y).take pat.length = X.take pat.length :=
    List.take_append_of_le_length hl
  have h2 : (pat ++ t).take pat.length = pat := List.take_left _ _
  rw [← ht, h2] at h1
  exact h1 ▸ List.take_prefix _ _

theorem prefix_append_cons_length {pat X B : List Char} {b : Char}
    (h : pat <+: X ++ b :: B) (hb : b ∉ pat) : pat.length ≤ X.length := by
  by_contra hlen
  push_neg at hlen
  obtain ⟨t, ht⟩ := h
  have h2 : pat = (X ++ b :: B).take pat.length := by
    rw [← ht, List.take_left]
  rw [List.take_append_eq_append_take, List.take_of_length_le (le_of_lt hlen)] at h2
  apply hb
  rw [h2]
  apply List.mem_append_right
  cases hkk : pat.length - X.length with
  | zero => omega
  | succ k =>
    rw [List.take_succ_cons]
    exact List.mem_cons_self _ _

theorem countNO_append_sep {pat : List Char} (hne : pat ≠ []) {b : Char} (hb : b ∉ pat) :
    ∀ (A B : List Char), countNO pat (A ++ b :: B) = countNO pat A + countNO pat B := by
  have hsep : ∀ B : List Char, countNO pat (b :: B) = countNO pat B := by
    intro B
    cases pat with
    | nil => exact absurd rfl hne
    | cons p pr =>
      exact countNO_cons_head_ne _ _ (fun hpb => hb (hpb ▸ List.mem_cons_self p pr))
  suffices H : ∀ (n : Nat) (A B : List Char), A.length ≤ n →
      countNO pat (A ++ b :: B) = countNO pat A + countNO pat B from
    fun A B => H A.length A B le_rfl
  intro n
  induction n with
  | zero =>
    intro A B hA
    have : A = [] := List.length_eq_zero.mp (Nat.le_zero.mp hA)
    subst this
    simp [countNO_nil, hsep]
  | succ n ih =>
    intro A B hA
    cases A with
    | nil => simp [countNO_nil, hsep]
    | cons a A' =>
      have hplen : 1 ≤ pat.length := List.length_pos.mpr hne
      by_cases hp : pat.isPrefixOf (a :: (A' ++ b :: B)) = true
      · have hpre : pat <+: (a :: A') ++ b :: B := List.isPrefixOf_iff_prefix.mp hp
        have hlen : pat.length ≤ (a :: A').length := prefix_append_cons_length hpre hb
        have hpre2 : pat <+: a :: A' := prefix_of_prefix_append hpre hlen
        have hp2 : pat.isPrefixOf (a :: A') = true := List.isPrefixOf_iff_prefix.mpr hpre2
        rw [show (a :: A') ++ b :: B = a :: (A' ++ b :: B) from rfl,
          countNO_cons_pos _ _ hne hp, countNO_cons_pos _ _ hne hp2]
        have hdrop : (a :: (A' ++ b :: B)).drop pat.length =
            ((a :: A').drop pat.length) ++ b :: B := by
          rw [show a :: (A' ++ b :: B) = (a :: A') ++ b :: B from rfl,
            List.drop_append_eq_append_drop,
            show pat.length - (a :: A').length = 0 from by omega]
          simp
        rw [hdrop, ih ((a :: A').drop pat.length) B
          (by simp only [List.length_drop, List.length_cons] at *; omega)]
        omega
      · have hp2 : ¬(pat ≠ [] ∧ pat.isPrefixOf (a :: A') = true) := by
          rintro ⟨-, hpre2⟩
          exact hp ( List.isPrefixOf_iff_prefix.mpr
            (( List.isPrefixOf_iff_prefix.mp hpre2).trans (List.prefix_append _ _)))
        rw [show (a :: A') ++ b :: B = a :: (A' ++ b :: B) from rfl,
          countNO_cons_neg _ _ (fun hcon => hp hcon.2), countNO_cons_neg _ _ hp2]
        exact ih A' B (by simp only [List.length_cons] at hA; omega)

theorem countNO_joinNL {pat : List Char} (hne : pat ≠ []) (hnl : '\n' ∉ pat) :
    ∀ lines : List (List Char),
      countNO pat (joinNL lines) = (lines.map (countNO pat)).sum := by
  intro lines
  induction lines with
  | nil => simp [joinNL, countNO_nil]
  | cons l ls ih =>
    cases ls with
    | nil => simp [joinNL]
    | cons l2 ls2 =>
      rw [show joinNL (l :: l2 :: ls2) = l ++ '\n' :: joinNL (l2 :: ls2) from rfl,
        countNO_append_sep hne hnl, ih]
      simp

theorem countNO_pos_iff {pat : List Char} (hne : pat ≠ []) :
    ∀ s : List Char, 0 < countNO pat s ↔ containsSub pat s = true := by
  suffices H : ∀ (n : Nat) (s : List Char), s.length ≤ n →
      (0 < countNO pat s ↔ containsSub pat s = true) from
    fun s => H s.length s le_rfl
  intro n
  induction n with
  | zero =>
    intro s hs
    have : s = [] := List.length_eq_zero.mp (Nat.le_zero.mp hs)
    subst this
    simp [countNO_nil, containsSub, List.isEmpty_iff, hne]
  | succ n ih =>
    intro s hs
    cases s with
    | nil => simp [countNO_nil, containsSub, List.isEmpty_iff, hne]
    | cons c rest =>
      by_cases hp : pat.isPrefixOf (c :: rest) = true
      · rw [countNO_cons_pos _ _ hne hp]
        simp [containsSub, hp]
      · rw [countNO_cons_neg _ _ (fun hcon => hp hcon.2)]
        have : containsSub pat (c :: rest) = containsSub pat rest := by
          simp [containsSub, hp]
        rw [this]
        exact ih rest (by simp only [List.length_cons] at hs; omega)

theorem sum_map_eq_countP (f : List Char → Nat) (p : List Char → Bool)
    (hfp : ∀ l : List Char, p l = true ↔ 0 < f l) :
    ∀ L : List (List Char), (∀ l ∈ L, f l ≤ 1) →
      (L.map f).sum = L.countP p := by
  intro L
  induction L with
  | nil => intro _; simp
  | cons l ls ih =>
    intro h
    rw [List.map_cons, List.sum_cons, List.countP_cons p l ls,
      ih (fun x hx => h x (List.mem_cons_of_mem _ hx))]
    by_cases hc : p l = true
    · have h1 : 0 < f l := (hfp l).mp hc
      have h2 : f l ≤ 1 := h l (List.mem_cons_self _ _)
      rw [hc]
      simp only [if_true]
      omega
    · have h0 : f l = 0 := by
        by_contra hh
        exact hc ((hfp l).mpr (by omega))
      simp [hc, h0]

/-! ### Claims about queue counting -/

/-- C6 (amended): `countbmsrunning` returns the total number of non-overlapping
occurrences of "tf2-train-cnn" in the queue listing; when every line contains
at most one occurrence, that is exactly the number N of lines containing the
substring, regardless of the other M lines. -/
theorem C6_queue_count :
    ∀ lines : List (List Char),
      (∀ l ∈ lines, countNO bm_name l ≤ 1) →
      countbmsrunning (joinNL lines) = (lines.map (countNO bm_name)).sum ∧
      countbmsrunning (joinNL lines) = lines.countP (fun l => containsSub bm_name l) := by
  intro lines h
  have hne : bm_name ≠ [] := by decide
  have hnl : '\n' ∉ bm_name := by decide
  have h1 : countbmsrunning (joinNL lines) = (lines.map (countNO bm_name)).sum :=
    countNO_joinNL hne hnl lines
  refine ⟨h1, ?_⟩
  rw [h1]
  exact sum_map_eq_countP (countNO bm_name) (fun l => containsSub bm_name l)
    (fun l => by rw [← countNO_pos_iff hne l]) lines h

/-- Counterexample to C6 as stated: one single line containing the job-name
substring twice gives N = 1 line containing the substring and M = 0 others,
yet `countbmsrunning` returns 2, not N. -/
theorem C6_queue_count_counterexample :
    (["tf2-train-cnntf2-train-cnn".data].countP (fun l => containsSub bm_name l) = 1) ∧
    countbmsrunning (joinNL ["tf2-train-cnntf2-train-cnn".data]) = 2 := by
  decide

/-- Witness for C6 on a two-line listing with one matching line. -/
theorem C6_queue_count_witness :
    (∀ l ∈ ["xx tf2-train-cnn yy".data, "other job".data], countNO bm_name l ≤ 1) ∧
    countbmsrunning (joinNL ["xx tf2-train-cnn yy".data, "other job".data]) =
      ["xx tf2-train-cnn yy".data, "other job".data].countP
        (fun l => containsSub bm_name l) :=
  ⟨by decide, (C6_queue_count ["xx tf2-train-cnn yy".data, "other job".data] (by decide)).2⟩

/-! ### Timing-extraction lemmas -/

theorem process_line_real {acc acc' : TimAcc} {line : List Char}
    (h : containsSub real_marker line = false)
    (hres : process_line acc line = Except.ok acc') : acc'.realnum = acc.realnum := by
  unfold process_line at hres
  split at hres
  · exact absurd hres (by simp)
  · rename_i r heq
    rw [if_neg (by simp [h])] at heq
    split at hres
    · exact absurd hres (by simp)
    · rename_i s heq2
      split at hres
      · exact absurd hres (by simp)
      · rename_i u heq3
        cases hres
        cases heq
        rfl

theorem process_line_sys {acc acc' : TimAcc} {line : List Char}
    (h : containsSub sys_marker line = false)
    (hres : process_line acc line = Except.ok acc') : acc'.sysnum = acc.sysnum := by
  unfold process_line at hres
  split at hres
  · exact absurd hres (by simp)
  · rename_i r heq
    split at hres
    · exact absurd hres (by simp)
    · rename_i s heq2
      rw [if_neg (by simp [h])] at heq2
      split at hres
      · exact absurd hres (by simp)
      · rename_i u heq3
        cases hres
        cases heq2
        rfl

theorem process_line_user {acc acc' : TimAcc} {line : List Char}
    (h : containsSub user_marker line = false)
    (hres : process_line acc line = Except.ok acc') : acc'.usernum = acc.usernum := by
  unfold process_line at hres
  split at hres
  · exact absurd hres (by simp)
  · rename_i r heq
    split at hres
    · exact absurd hres (by simp)
    · rename_i s heq2
      split at hres
      · exact absurd hres (by simp)
      · rename_i u heq3
        rw [if_neg (by simp [h])] at heq3
        cases hres
        cases heq3
        rfl

theorem run_lines_preserve {sel : TimAcc → PyFloat} {mk : List Char}
    (hstep : ∀ (acc acc' : TimAcc) (line : List Char), containsSub mk line = false →
      process_line acc line = Except.ok acc' → sel acc' = sel acc) :
    ∀ (lines : List (List Char)) (acc acc' : TimAcc),
      (∀ l ∈ lines, containsSub mk l = false) →
      run_lines acc lines = Except.ok acc' → sel acc' = sel acc := by
  intro lines
  induction lines with
  | nil =>
    intro acc acc' _ h
    unfold run_lines at h
    cases h
    rfl
  | cons l ls ih =>
    intro acc acc' hm h
    unfold run_lines at h
    split at h
    · exact absurd h (by simp)
    · rename_i acc1 heq
      rw [ih acc1 acc' (fun x hx => hm x (List.mem_cons_of_mem _ hx)) h,
        hstep acc acc1 l (hm l (List.mem_cons_self _ _)) heq]

/-! ### Claims about timing extraction -/

/-- C3: an output file consisting of the three lines `real 1.23`, `sys 0.45`,
`user 0.67` in any order yields exactly the triple (1.23, 0.45, 0.67); a file
from which at least one of the markers "real ", "sys ", "user " is absent
yields no CSV row. -/
theorem C3_timing_extraction :
    (∀ fl ∈ ([["real 1.23".data, "sys 0.45".data, "user 0.67".data],
        ["real 1.23".data, "user 0.67".data, "sys 0.45".data],
        ["sys 0.45".data, "real 1.23".data, "user 0.67".data],
        ["sys 0.45".data, "user 0.67".data, "real 1.23".data],
        ["user 0.67".data, "real 1.23".data, "sys 0.45".data],
        ["user 0.67".data, "sys 0.45".data, "real 1.23".data]] :
          List (List (List Char))),
      extract_timing fl = Except.ok (some (⟨123, 2⟩, ⟨45, 2⟩, ⟨67, 2⟩))) ∧
    (∀ lines : List (List Char),
      ((∀ l ∈ lines, containsSub real_marker l = false) ∨
       (∀ l ∈ lines, containsSub sys_marker l = false) ∨
       (∀ l ∈ lines, containsSub user_marker l = false)) →
      row_written lines = false) := by
  constructor
  · decide
  · intro lines h
    cases hrun : run_lines ⟨negOne, negOne, negOne⟩ lines with
    | error e =>
      unfold row_written extract_timing
      rw [hrun]
    | ok acc =>
      have hx : acc.realnum.eqv negOne = true ∨ acc.sysnum.eqv negOne = true ∨
          acc.usernum.eqv negOne = true := by
        rcases h with h | h | h
        · left
          rw [run_lines_preserve (fun a a' l => process_line_real) lines _ acc h hrun]
          decide
        · right; left
          rw [run_lines_preserve (fun a a' l => process_line_sys) lines _ acc h hrun]
          decide
        · right; right
          rw [run_lines_preserve (fun a a' l => process_line_user) lines _ acc h hrun]
          decide
      have hcond : ¬(acc.realnum.eqv negOne = false ∧ acc.sysnum.eqv negOne = false ∧
          acc.usernum.eqv negOne = false) := by
        rcases hx with h | h | h <;> simp [h]
      have hext : extract_timing lines = Except.ok none := by
        unfold extract_timing
        rw [hrun]
        simp [hcond]
      unfold row_written
      rw [hext]

/-- Witness for C3 on a file lacking the "real " marker. -/
theorem C3_timing_extraction_witness :
    (∀ l ∈ (["sys 0.45".data, "user 0.67".data] : List (List Char)),
      containsSub real_marker l = false) ∧
    row_written ["sys 0.45".data, "user 0.67".data] = false :=
  ⟨by decide, C3_timing_extraction.2 ["sys 0.45".data, "user 0.67".data] (Or.inl (by decide))⟩

/-! ### Character-class lemmas for `strOfInt` -/

theorem digitChar_isDigit {n : Nat} (h : n < 10) : (Nat.digitChar n).isDigit = true := by
  interval_cases n <;> decide

theorem natDigitsF_digits : ∀ (f n : Nat), ∀ c ∈ natDigitsF f n, c.isDigit = true := by
  intro f
  induction f with
  | zero => intro n c hc; simp [natDigitsF] at hc
  | succ f ih =>
    intro n c hc
    by_cases h : n < 10
    · rw [show natDigitsF (f + 1) n = [Nat.digitChar n] from by simp [natDigitsF, h]] at hc
      rw [List.mem_singleton] at hc
      subst hc
      exact digitChar_isDigit h
    · rw [show natDigitsF (f + 1) n =
          natDigitsF f (n / 10) ++ [Nat.digitChar (n % 10)] from by simp [natDigitsF, h]] at hc
      rcases List.mem_append.mp hc with hc | hc
      · exact ih _ c hc
      · rw [List.mem_singleton] at hc
        subst hc
        exact digitChar_isDigit (Nat.mod_lt _ (by omega))

theorem strOfInt_numChars (n : Int) : ∀ c ∈ strOfInt n, isNumChar c = true := by
  intro c hc
  unfold strOfInt at hc
  by_cases h : n < 0
  · rw [if_pos h] at hc
    rcases List.mem_cons.mp hc with rfl | hc
    · decide
    · have hd := natDigitsF_digits _ _ c hc
      simp [isNumChar, hd]
  · rw [if_neg h] at hc
    have hd := natDigitsF_digits _ _ c hc
    simp [isNumChar, hd]

theorem natDigits_ne_nil (m : Nat) : natDigits m ≠ [] := by
  unfold natDigits natDigitsF
  by_cases h : m < 10 <;> simp [h]

theorem strOfInt_ne_nil (n : Int) : strOfInt n ≠ [] := by
  unfold strOfInt
  by_cases h : n < 0
  · simp [h]
  · simp [h, natDigits_ne_nil]

/-! ### Structure lemmas for `replaceAll` and `countOcc` -/

theorem replaceAll_append_left {pat rep : List Char} (hne : pat ≠ []) :
    ∀ (s t : List Char), (∀ c ∈ s, c ∉ pat) →
      replaceAll pat rep (s ++ t) = s ++ replaceAll pat rep t := by
  intro s
  induction s with
  | nil => intro t _; simp
  | cons c s' ih =>
    intro t hdis
    have hnp : ¬(pat ≠ [] ∧ pat.isPrefixOf (c :: (s' ++ t)) = true) := by
      rintro ⟨-, hpre⟩
      have h := List.isPrefixOf_iff_prefix.mp hpre
      cases pat with
      | nil => exact hne rfl
      | cons p pr =>
        rw [List.cons_prefix_cons] at h
        exact hdis c (List.mem_cons_self _ _) (by rw [← h.1]; exact List.mem_cons_self _ _)
    show replaceAll pat rep (c :: (s' ++ t)) = c :: (s' ++ replaceAll pat rep t)
    rw [replaceAll_cons_neg _ _ _ hnp, ih t (fun x hx => hdis x (List.mem_cons_of_mem _ hx))]

theorem replaceAll_head_match {pat : List Char} (rep : List Char) (hne : pat ≠ []) (t : List Char) :
    replaceAll pat rep (pat ++ t) = rep ++ replaceAll pat rep t := by
  cases pat with
  | nil => exact absurd rfl hne
  | cons p pr =>
    have hpre : (p :: pr).isPrefixOf (p :: (pr ++ t)) = true :=
      List.isPrefixOf_iff_prefix.mpr (List.prefix_append _ _)
    show replaceAll (p :: pr) rep (p :: (pr ++ t)) = _
    rw [replaceAll_cons_pos _ _ _ hne hpre]
    congr 1
    exact congrArg _ (List.drop_left (p :: pr) t)

theorem replaceAll_of_not_contains {pat : List Char} (rep : List Char) :
    ∀ s : List Char, containsSub pat s = false → replaceAll pat rep s = s := by
  intro s
  induction s with
  | nil => intro _; rfl
  | cons c rest ih =>
    intro h
    have h' : (pat.isPrefixOf (c :: rest) || containsSub pat rest) = false := h
    rw [Bool.or_eq_false_iff] at h'
    rw [replaceAll_cons_neg _ _ _ (fun hcon => by rw [hcon.2] at h'; exact absurd h'.1 (by simp)),
      ih h'.2]

theorem containsSub_false_of_missing_char {pat : List Char} (b : Char) (hb : b ∈ pat) :
    ∀ s : List Char, b ∉ s → containsSub pat s = false := by
  intro s
  induction s with
  | nil =>
    intro _
    have : pat ≠ [] := fun h => by rw [h] at hb; cases hb
    simp [containsSub, List.isEmpty_iff, this]
  | cons c rest ih =>
    intro hbs
    have h1 : pat.isPrefixOf (c :: rest) = false := by
      cases hp : pat.isPrefixOf (c :: rest) with
      | false => rfl
      | true =>
        exact absurd (( List.isPrefixOf_iff_prefix.mp hp).subset hb) hbs
    have h2 : containsSub pat rest = false := ih (fun hm => hbs (List.mem_cons_of_mem _ hm))
    simp [containsSub, h1, h2]

theorem prefix_append_mid_iff {v B : List Char} (hv : ∀ c ∈ v, isNumChar c = true)
    (hvne : v ≠ []) :
    ∀ (pat : List Char), (∀ c ∈ pat, isNumChar c = false) →
      ∀ A : List Char, (pat <+: A ++ (v ++ B) ↔ pat <+: A) := by
  intro pat
  induction pat with
  | nil => intro _ A; simp [ List.nil_prefix]
  | cons p pr ihp =>
    intro hpat A
    cases A with
    | nil =>
      simp only [List.nil_append]
      constructor
      · intro hcon
        cases v with
        | nil => exact absurd rfl hvne
        | cons w v' =>
          rw [show (w :: v') ++ B = w :: (v' ++ B) from rfl, List.cons_prefix_cons] at hcon
          have h1 : isNumChar p = false := hpat p (List.mem_cons_self _ _)
          have h2 : isNumChar w = true := hv w (List.mem_cons_self _ _)
          rw [hcon.1, h2] at h1
          cases h1
      · intro hcon
        simp at hcon
    | cons a A' =>
      rw [show (a :: A') ++ (v ++ B) = a :: (A' ++ (v ++ B)) from rfl,
        List.cons_prefix_cons, List.cons_prefix_cons]
      exact and_congr_right
        (fun _ => ihp (fun c hc => hpat c (List.mem_cons_of_mem _ hc)) A')

theorem countOcc_all_notNum_zero {v : List Char} (hv : ∀ c ∈ v, isNumChar c = true)
    (hvne : v ≠ []) :
    ∀ B : List Char, (∀ c ∈ B, isNumChar c = false) → countOcc v B = 0 := by
  intro B
  induction B with
  | nil => intro _; rfl
  | cons b B' ih =>
    intro hB
    have h1 : v.isPrefixOf (b :: B') = false := by
      cases hp : v.isPrefixOf (b :: B') with
      | false => rfl
      | true =>
        cases v with
        | nil => exact absurd rfl hvne
        | cons x v' =>
          have h := List.isPrefixOf_iff_prefix.mp hp
          rw [List.cons_prefix_cons] at h
          have h2 : isNumChar x = true := hv x (List.mem_cons_self _ _)
          have h3 : isNumChar b = false := hB b (List.mem_cons_self _ _)
          rw [← h.1, h2] at h3
          cases h3
    simp [countOcc, h1, ih (fun c hc => hB c (List.mem_cons_of_mem _ hc))]

theorem not_prefix_of_short {v : List Char} (hv : ∀ c ∈ v, isNumChar c = true) :
    ∀ (w B : List Char), (∀ c ∈ B, isNumChar c = false) → w.length < v.length →
      ¬ v <+: w ++ B := by
  intro w
  induction w generalizing v with
  | nil =>
    intro B hB hlen hcon
    cases v with
    | nil => simp at hlen
    | cons x v' =>
      cases B with
      | nil => simp at hcon
      | cons b B' =>
        rw [List.nil_append, List.cons_prefix_cons] at hcon
        have h2 : isNumChar x = true := hv x (List.mem_cons_self _ _)
        have h3 : isNumChar b = false := hB b (List.mem_cons_self _ _)
        rw [← hcon.1, h2] at h3
        cases h3
  | cons a w' ih =>
    intro B hB hlen hcon
    cases v with
    | nil => simp at hlen
    | cons x v' =>
      rw [show (a :: w') ++ B = a :: (w' ++ B) from rfl, List.cons_prefix_cons] at hcon
      exact ih (fun c hc => hv c (List.mem_cons_of_mem _ hc)) B hB
        (by simp at hlen; omega) hcon.2

theorem countOcc_short_zero {v : List Char} (hv : ∀ c ∈ v, isNumChar c = true) :
    ∀ (w B : List Char), (∀ c ∈ B, isNumChar c = false) → w.length < v.length →
      countOcc v (w ++ B) = 0 := by
  intro w
  induction w with
  | nil =>
    intro B hB hlen
    have hvne : v ≠ [] := by
      intro h
      rw [h] at hlen
      simp at hlen
    exact countOcc_all_notNum_zero hv hvne B hB
  | cons a w' ih =>
    intro B hB hlen
    have h1 : v.isPrefixOf (a :: (w' ++ B)) = false := by
      cases hp : v.isPrefixOf (a :: (w' ++ B)) with
      | false => rfl
      | true =>
        exact absurd ( List.isPrefixOf_iff_prefix.mp hp)
          (not_prefix_of_short hv (a :: w') B hB hlen)
    show countOcc v (a :: (w' ++ B)) = 0
    simp only [countOcc, h1, Bool.false_eq_true, if_false, Nat.zero_add]
    exact ih B hB (by simp at hlen ⊢; omega)

theorem countOcc_sandwich {v : List Char} (hv : ∀ c ∈ v, isNumChar c = true)
    (hvne : v ≠ []) :
    ∀ (A B : List Char), (∀ c ∈ A, isNumChar c = false) →
      (∀ c ∈ B, isNumChar c = false) → countOcc v (A ++ (v ++ B)) = 1 := by
  intro A
  induction A with
  | nil =>
    intro B _ hB
    cases v with
    | nil => exact absurd rfl hvne
    | cons x v' =>
      show countOcc (x :: v') (x :: (v' ++ B)) = 1
      have hpre : (x :: v').isPrefixOf (x :: (v' ++ B)) = true :=
        List.isPrefixOf_iff_prefix.mpr (List.prefix_append _ _)
      have hz := countOcc_short_zero hv v' B hB (by simp)
      simp only [countOcc, hpre, if_true, hz]
  | cons a A' ih =>
    intro B hA hB
    have h1 : v.isPrefixOf (a :: (A' ++ (v ++ B))) = false := by
      cases hp : v.isPrefixOf (a :: (A' ++ (v ++ B))) with
      | false => rfl
      | true =>
        cases v with
        | nil => exact absurd rfl hvne
        | cons x v' =>
          have h := List.isPrefixOf_iff_prefix.mp hp
          rw [List.cons_prefix_cons] at h
          have h2 : isNumChar x = true := hv x (List.mem_cons_self _ _)
          have h3 : isNumChar a = false := hA a (List.mem_cons_self _ _)
          rw [← h.1, h2] at h3
          cases h3
    show countOcc v (a :: (A' ++ (v ++ B))) = 1
    simp only [countOcc, h1, Bool.false_eq_true, if_false, Nat.zero_add]
    exact ih B (fun c hc => hA c (List.mem_cons_of_mem _ hc)) hB

theorem countOcc_split_mid {v B : List Char} (hv : ∀ c ∈ v, isNumChar c = true)
    (hvne : v ≠ []) :
    ∀ (pat : List Char), pat ≠ [] → (∀ c ∈ pat, isNumChar c = false) →
      ∀ A : List Char, countOcc pat (A ++ (v ++ B)) = countOcc pat A + countOcc pat B := by
  intro pat hpatne hpat A
  induction A with
  | nil =>
    simp only [List.nil_append, countOcc]
    -- occurrences cannot start inside `v`
    have hmid : ∀ w : List Char, (∀ c ∈ w, isNumChar c = true) →
        countOcc pat (w ++ B) = countOcc pat B := by
      intro w
      induction w with
      | nil => intro _; rfl
      | cons x w' ihw =>
        intro hw
        have h1 : pat.isPrefixOf (x :: (w' ++ B)) = false := by
          cases hp : pat.isPrefixOf (x :: (w' ++ B)) with
          | false => rfl
          | true =>
            cases pat with
            | nil => exact absurd rfl hpatne
            | cons p pr =>
              have h := List.isPrefixOf_iff_prefix.mp hp
              rw [List.cons_prefix_cons] at h
              have h2 : isNumChar p = false := hpat p (List.mem_cons_self _ _)
              have h3 : isNumChar x = true := hw x (List.mem_cons_self _ _)
              rw [h.1, h3] at h2
              cases h2
        show countOcc pat (x :: (w' ++ B)) = countOcc pat B
        simp only [countOcc, h1, Bool.false_eq_true, if_false, Nat.zero_add]
        exact ihw (fun c hc => hw c (List.mem_cons_of_mem _ hc))
    rw [hmid v hv]
    omega
  | cons a A' ih =>
    have hcond : (pat.isPrefixOf (a :: (A' ++ (v ++ B))) = true) ↔
        (pat.isPrefixOf (a :: A') = true) := by
      rw [ List.isPrefixOf_iff_prefix, List.isPrefixOf_iff_prefix]
      exact (show pat <+: (a :: A') ++ (v ++ B) ↔ pat <+: a :: A' from
        prefix_append_mid_iff hv hvne pat hpat (a :: A'))
    show countOcc pat (a :: (A' ++ (v ++ B))) =
      countOcc pat (a :: A') + countOcc pat B
    simp only [countOcc]
    rw [if_congr hcond rfl rfl, ih]
    omega

/-! ### Claims about template substitution -/

theorem create_benchmark_eq (cpus : Int) (p : List Char) :
    create_benchmark cpus p =
      template_head ++ (strOfInt cpus ++ (template_mid ++ (p ++ template_tail))) := by
  have hv : ∀ c ∈ strOfInt cpus, isNumChar c = true := strOfInt_numChars cpus
  have hctne : cpus_token ≠ [] := by decide
  have hptne : partition_token ≠ [] := by decide
  have hptnum : ∀ c ∈ partition_token, isNumChar c = false := by decide
  have h1 : replaceAll cpus_token (strOfInt cpus) template_model =
      template_head ++ (strOfInt cpus ++ (template_mid ++ (partition_token ++ template_tail))) := by
    have htm : template_model =
        template_head ++ (cpus_token ++ (template_mid ++ (partition_token ++ template_tail))) := by
      simp [template_model, List.append_assoc]
    rw [htm, replaceAll_append_left hctne template_head _ (by decide),
      replaceAll_head_match _ hctne, replaceAll_of_not_contains _ _ (by decide)]
  unfold create_benchmark
  rw [h1, replaceAll_append_left hptne template_head _ (by decide),
    replaceAll_append_left hptne (strOfInt cpus) _
      (fun c hc hcpt => absurd (hv c hc) (by rw [hptnum c hcpt]; simp)),
    replaceAll_append_left hptne template_mid _ (by decide),
    replaceAll_head_match _ hptne, replaceAll_of_not_contains _ _ (by decide)]

/-- C5 (amended): for every integer `cpus` and for the partition strings the
driver actually passes ("shared" and "compute"), `create_benchmark` writes the
template with the CPUS token replaced by `str(cpus)` and then the PARTITION
token replaced by the partition; the result contains neither placeholder token
and contains each substituted value exactly once. -/
theorem C5_template_substitution :
    ∀ (cpus : Int) (p : List Char), (p = "shared".data ∨ p = "compute".data) →
      create_benchmark cpus p =
        template_head ++ (strOfInt cpus ++ (template_mid ++ (p ++ template_tail))) ∧
      containsSub cpus_token (create_benchmark cpus p) = false ∧
      containsSub partition_token (create_benchmark cpus p) = false ∧
      countOcc (strOfInt cpus) (create_benchmark cpus p) = 1 ∧
      countOcc p (create_benchmark cpus p) = 1 := by
  intro cpus p hp
  have heq := create_benchmark_eq cpus p
  have hv : ∀ c ∈ strOfInt cpus, isNumChar c = true := strOfInt_numChars cpus
  have hvne : strOfInt cpus ≠ [] := strOfInt_ne_nil cpus
  have hbr : '[' ∉ strOfInt cpus := fun hmem => absurd (hv _ hmem) (by decide)
  have hmem : '[' ∉ create_benchmark cpus p := by
    rw [heq]
    intro hin
    rcases List.mem_append.mp hin with h | hin
    · exact absurd h (by decide)
    rcases List.mem_append.mp hin with h | hin
    · exact hbr h
    rcases List.mem_append.mp hin with h | hin
    · exact absurd h (by decide)
    rcases List.mem_append.mp hin with h | hin
    · rcases hp with rfl | rfl <;> exact absurd h (by decide)
    · exact absurd hin (by decide)
  refine ⟨heq, ?_, ?_, ?_, ?_⟩
  · exact containsSub_false_of_missing_char '[' (by decide) _ hmem
  · exact containsSub_false_of_missing_char '[' (by decide) _ hmem
  · rw [heq]
    rcases hp with rfl | rfl <;>
      exact countOcc_sandwich hv hvne template_head _ (by decide) (by decide)
  · rcases hp with rfl | rfl <;>
      · rw [heq, countOcc_split_mid hv hvne _ (by decide) (by decide) template_head]
        decide

/-- Counterexample to C5 as stated: for the partition string consisting of the
PARTITION placeholder token itself, the generated script still contains that
placeholder token, because Python `str.replace` does not rescan replacement
text. -/
theorem C5_template_substitution_counterexample :
    containsSub partition_token (create_benchmark 32 partition_token) = true := by
  decide

/-- Witness for C5 at `cpus = 7`, partition "shared". -/
theorem C5_template_substitution_witness :
    create_benchmark 7 "shared".data =
      template_head ++ (strOfInt 7 ++ (template_mid ++ ("shared".data ++ template_tail))) ∧
    countOcc (strOfInt 7) (create_benchmark 7 "shared".data) = 1 ∧
    countOcc "shared".data (create_benchmark 7 "shared".data) = 1 :=
  ⟨(C5_template_substitution 7 "shared".data (Or.inl rfl)).1,
   (C5_template_substitution 7 "shared".data (Or.inl rfl)).2.2.2.1,
   (C5_template_substitution 7 "shared".data (Or.inl rfl)).2.2.2.2⟩

/-! ### The CPU sweep of the benchmark driver -/

theorem main_sweep_eq_spec_ge {cpus maxc : Int} (h : maxc ≤ cpus) :
    main_sweep cpus maxc = main_sweep_spec cpus maxc := by
  have hsteps : sweep_steps cpus maxc = 0 := by
    unfold sweep_steps
    exact Nat.div_eq_of_lt (by omega)
  unfold main_sweep_spec
  rw [hsteps]
  simp only [List.range_zero, List.map_nil, List.nil_append, Nat.cast_zero, mul_zero, add_zero]
  unfold main_sweep
  rw [if_neg (by omega : ¬cpus < maxc)]
  by_cases hc : cpus = maxc
  · rw [if_pos hc, if_pos hc]
    unfold run_benchmark_submits
    rw [if_neg (by omega : ¬cpus > maxc), hc]
  · rw [if_neg hc, if_neg hc]

theorem main_sweep_eq_spec : ∀ cpus maxc : Int, main_sweep cpus maxc = main_sweep_spec cpus maxc := by
  suffices H : ∀ (k : Nat) (cpus maxc : Int), (maxc - cpus).toNat ≤ k →
      main_sweep cpus maxc = main_sweep_spec cpus maxc from
    fun cpus maxc => H (maxc - cpus).toNat cpus maxc le_rfl
  intro k
  induction k with
  | zero =>
    intro cpus maxc h
    exact main_sweep_eq_spec_ge (by omega)
  | succ k ih =>
    intro cpus maxc h
    by_cases hlt : cpus < maxc
    · have hstep : sweep_steps cpus maxc = sweep_steps (cpus + 16) maxc + 1 := by
        unfold sweep_steps
        have h1 : (maxc - cpus + 15).toNat = (maxc - (cpus + 16) + 15).toNat + 16 := by omega
        rw [h1, Nat.add_div_right _ (by norm_num)]
      have hrec := ih (cpus + 16) maxc (by omega)
      unfold main_sweep
      rw [if_pos hlt, hrec]
      unfold run_benchmark_submits
      rw [if_neg (by omega : ¬cpus > maxc)]
      unfold main_sweep_spec
      rw [hstep, List.range_succ_eq_map, List.map_cons, List.map_map]
      simp only [List.singleton_append, List.cons_append]
      have hmap : List.map (fun i : Nat => (cpus + 16 + 16 * (i : Int), ("shared" : String)))
          (List.range (sweep_steps (cpus + 16) maxc)) =
          List.map ((fun i : Nat => (cpus + 16 * (i : Int), ("shared" : String))) ∘ Nat.succ)
          (List.range (sweep_steps (cpus + 16) maxc)) := by
        apply List.map_congr_left
        intro i _
        simp only [Function.comp_apply, Prod.mk.injEq]
        refine ⟨by push_cast; ring, trivial⟩
      have hif : (if cpus + 16 + 16 * ((sweep_steps (cpus + 16) maxc : Nat) : Int) = maxc
            then [(maxc, ("compute" : String))] else []) =
          (if cpus + 16 * ((sweep_steps (cpus + 16) maxc + 1 : Nat) : Int) = maxc
            then [(maxc, ("compute" : String))] else []) :=
        if_congr (by push_cast; omega) rfl rfl
      rw [hmap, hif]
      simp
    · exact main_sweep_eq_spec_ge (by omega)

/-- C4: the main driver submits jobs at CPU counts starting at 32 and
increasing by 16 while strictly below the max, each on partition "shared" (a
monotonically increasing sequence), and exactly when the count after the loop
equals the max, it submits one additional job at that count on partition
"compute"; in particular max = 64 yields jobs at 32, 48, and 64 on "compute". -/
theorem C4_cpu_sweep :
    (∀ maxc : Int, main_jobs maxc = main_sweep_spec 32 maxc) ∧
    (∀ maxc : Int, List.Pairwise (fun a b : Int × String => a.1 < b.1) (main_jobs maxc)) ∧
    main_jobs 64 = [(32, "shared"), (48, "shared"), (64, "compute")] := by
  have h1 : ∀ maxc : Int, main_jobs maxc = main_sweep_spec 32 maxc :=
    fun maxc => main_sweep_eq_spec 32 maxc
  refine ⟨h1, ?_, ?_⟩
  · intro maxc
    rw [h1]
    unfold main_sweep_spec
    rw [List.pairwise_append]
    refine ⟨?_, ?_, ?_⟩
    · rw [List.pairwise_map]
      apply List.Pairwise.imp ?_ (List.pairwise_lt_range _)
      intro a b hab
      simp only
      omega
    · split <;> simp
    · intro a ha b hb
      rw [List.mem_map] at ha
      obtain ⟨i, hi, rfl⟩ := ha
      rw [List.mem_range] at hi
      by_cases hc : 32 + 16 * ((sweep_steps 32 maxc : Nat) : Int) = maxc
      · rw [if_pos hc] at hb
        rw [List.mem_singleton] at hb
        subst hb
        simp only
        omega
      · rw [if_neg hc] at hb
        cases hb
  · rw [h1 64]
    decide

/-! ### Claims about the training runner -/

/-- C1: In the training runner, the on-disk save format is selected by testing
`args.model_file` (native-TF for "tf", HDF5 for "h5", Keras for "keras", and
otherwise "model_tf.onnx"), and for every parsed argument configuration the
value of `args.save_model` has no effect on which save branch is taken. -/
theorem C1_save_format_branch :
    (∀ args : TrainArgs, args.model_file = "tf" →
      save_branch args = (SaveFormat.tf, "model_tf")) ∧
    (∀ args : TrainArgs, args.model_file = "h5" →
      save_branch args = (SaveFormat.h5, "model_tf.h5")) ∧
    (∀ args : TrainArgs, args.model_file = "keras" →
      save_branch args = (SaveFormat.keras, "model_tf.keras")) ∧
    (∀ args : TrainArgs, args.model_file ≠ "tf" → args.model_file ≠ "h5" →
      args.model_file ≠ "keras" → save_branch args = (SaveFormat.onnx, "model_tf.onnx")) ∧
    (∀ (args : TrainArgs) (s : String),
      save_branch { args with save_model := s } = save_branch args) := by
  refine ⟨?_, ?_, ?_, ?_, ?_⟩ <;> intros <;> simp_all [save_branch]

/-- Witness for C1 at concrete argument records. -/
theorem C1_save_format_branch_witness :
    save_branch ⟨10, "fp32", 42, 256, "auto", 0, "tf", "onnx"⟩ = (SaveFormat.tf, "model_tf") ∧
    save_branch ⟨10, "fp32", 42, 256, "auto", 0, "", "pt"⟩ = (SaveFormat.onnx, "model_tf.onnx") :=
  ⟨C1_save_format_branch.1 _ rfl,
   C1_save_format_branch.2.2.2.1 _ (by decide) (by decide) (by decide)⟩

/-- C2: when `--model_file` is left at its default empty string, `main`'s
model-construction branch calls `create_model(classes)` with one argument while
`create_model` requires two positional parameters, so the fresh-training path
always fails before `model.fit` is reached (with the missing-argument
`TypeError` whenever the dataset asserts pass); only runs that load a
pre-existing model avoid the call. -/
theorem C2_fresh_training_type_error :
    (∀ (args : TrainArgs) (loaded : DataShapes), args.model_file = "" →
      TrainEvent.fit ∉ (main_run args loaded).1 ∧
      (main_run args loaded).2.isSome = true ∧
      (∀ d, create_datasets args.classes loaded = Except.ok d →
        main_run args loaded =
          ([TrainEvent.load_data, TrainEvent.create_model_attempt], some type_error_msg))) ∧
    (∀ (args : TrainArgs) (loaded : DataShapes), args.model_file ≠ "" →
      TrainEvent.create_model_attempt ∉ (main_run args loaded).1) := by
  constructor
  · intro args loaded hmf
    cases hcd : create_datasets args.classes loaded with
    | error e =>
      refine ⟨by simp [main_run, hcd], by simp [main_run, hcd], ?_⟩
      intro d hd
      simp [hcd] at hd
    | ok d0 =>
      refine ⟨?_, ?_, ?_⟩ <;>
        simp [main_run, hcd, hmf, main_create_model_arg_count, create_model_param_count]
  · intro args loaded hmf
    cases hcd : create_datasets args.classes loaded with
    | error e => simp [main_run, hcd]
    | ok d0 => simp [main_run, hcd, hmf]

/-- Witness for C2 at the default configuration and well-shaped data. -/
theorem C2_fresh_training_type_error_witness :
    TrainEvent.fit ∉ (main_run ⟨10, "fp32", 42, 256, "auto", 0, "", "onnx"⟩ expected_shapes).1 ∧
    main_run ⟨10, "fp32", 42, 256, "auto", 0, "", "onnx"⟩ expected_shapes =
      ([TrainEvent.load_data, TrainEvent.create_model_attempt], some type_error_msg) := by
  have h := C2_fresh_training_type_error.1 ⟨10, "fp32", 42, 256, "auto", 0, "", "onnx"⟩
    expected_shapes rfl
  exact ⟨h.1, h.2.2 (([50000, 32, 32, 3], [50000, 1]), ([10000, 32, 32, 3], [10000, 1]))
    (by decide)⟩

/-- C8: for class count 10, `create_datasets` raises an assertion failure
before returning whenever the loaded arrays deviate from the exact expected
shapes; when all four match, the assertions pass and the two datasets are
returned.  Any assert failure makes `main` stop before training. -/
theorem C8_dataset_shape_asserts :
    (∀ loaded : DataShapes, loaded ≠ expected_shapes →
      ∃ e, create_datasets 10 loaded = Except.error e) ∧
    create_datasets 10 expected_shapes =
      Except.ok (([50000, 32, 32, 3], [50000, 1]), ([10000, 32, 32, 3], [10000, 1])) ∧
    (∀ (args : TrainArgs) (loaded : DataShapes) (e : String),
      create_datasets args.classes loaded = Except.error e →
      main_run args loaded = ([TrainEvent.load_data], some e)) := by
  refine ⟨?_, by decide, ?_⟩
  · intro loaded hne
    by_cases h1 : loaded.x_train = [50000, 32, 32, 3]
    · by_cases h2 : loaded.y_train = [50000, 1]
      · by_cases h3 : loaded.x_test = [10000, 32, 32, 3]
        · by_cases h4 : loaded.y_test = [10000, 1]
          · exfalso
            apply hne
            obtain ⟨a, b, c, d⟩ := loaded
            simp only at h1 h2 h3 h4
            simp [expected_shapes, h1, h2, h3, h4]
          · exact ⟨"AssertionError: y_test.shape", by simp [create_datasets, h1, h2, h3, h4]⟩
        · exact ⟨"AssertionError: x_test.shape", by simp [create_datasets, h1, h2, h3]⟩
      · exact ⟨"AssertionError: y_train.shape", by simp [create_datasets, h1, h2]⟩
    · exact ⟨"AssertionError: x_train.shape", by simp [create_datasets, h1]⟩
  · intro args loaded e h
    simp [main_run, h]

/-- Witness for C8 at a concretely mis-shaped input. -/
theorem C8_dataset_shape_asserts_witness :
    (DataShapes.mk [] [] [] [] ≠ expected_shapes) ∧
    ∃ e, create_datasets 10 ⟨[], [], [], []⟩ = Except.error e :=
  ⟨by decide, C8_dataset_shape_asserts.1 _ (by decide)⟩

/-- C7: when `args.accelerator` is "auto", `create_model` resolves it to the
first available device class in the fixed priority order GPU, HPU, TPU, and to
CPU when none is present; a non-"auto" value is kept (uppercased) rather than
re-resolved. -/
theorem C7_accelerator_resolution :
    (∀ avail : String → Bool,
      create_model_accelerator "auto" avail =
        ((["GPU", "HPU", "TPU"].find? (fun d => avail d)).getD "CPU")) ∧
    (∀ (acc : String) (avail : String → Bool), acc ≠ "auto" →
      create_model_accelerator acc avail = upperStr acc) := by
  constructor
  · intro avail
    cases h1 : avail "GPU" <;> cases h2 : avail "HPU" <;> cases h3 : avail "TPU" <;>
      · simp [create_model_accelerator, resolve_accelerator, h1, h2, h3, List.find?]
        try decide
  · intro acc avail h
    simp [create_model_accelerator, resolve_accelerator, h]

/-- Witness for C7 at a concrete non-"auto" accelerator. -/
theorem C7_accelerator_resolution_witness :
    ("cpu" ≠ "auto") ∧
    create_model_accelerator "cpu" (fun _ => false) = upperStr "cpu" :=
  ⟨by decide, C7_accelerator_resolution.2 "cpu" (fun _ => false) (by decide)⟩

/-! ### Claims about the benchmark orchestrator -/

/-- C9: for `cpus` strictly greater than the configured maximum,
`run_benchmark` is a no-op — it performs no file read, no file write and no
job submission; for `cpus ≤ max` it reads the template, writes the generated
script and submits it. -/
theorem C9_run_benchmark_frame :
    ∀ (cpus maxc : Int) (partition : List Char) (submit_dir : String),
      (maxc < cpus → run_benchmark cpus maxc partition submit_dir = []) ∧
      (cpus ≤ maxc →
        run_benchmark cpus maxc partition submit_dir =
          [BMEffect.read_template template_path,
           BMEffect.write_script (script_path cpus) (create_benchmark cpus partition),
           BMEffect.submit_job (submit_dir ++ "/" ++ script_path cpus),
           BMEffect.echo_line (strOfInt cpus)]) := by
  intro cpus maxc p d
  constructor
  · intro h
    simp [run_benchmark, h]
  · intro h
    have h' : ¬cpus > maxc := not_lt.mpr h
    simp [run_benchmark, h']

/-- Witness for C9 on both sides of the guard. -/
theorem C9_run_benchmark_frame_witness :
    ((128 : Int) < 200 ∧ run_benchmark 200 128 "shared".data "/jobs" = []) ∧
    ((32 : Int) ≤ 128 ∧
      run_benchmark 32 128 "shared".data "/jobs" =
        [BMEffect.read_template template_path,
         BMEffect.write_script (script_path 32) (create_benchmark 32 "shared".data),
         BMEffect.submit_job ("/jobs" ++ "/" ++ script_path 32),
         BMEffect.echo_line (strOfInt 32)]) :=
  ⟨⟨by decide, (C9_run_benchmark_frame 200 128 "shared".data "/jobs").1 (by decide)⟩,
   ⟨by decide, (C9_run_benchmark_frame 32 128 "shared".data "/jobs").2 (by decide)⟩⟩

/-- C10: because the extractor uses `-1` as the "marker not seen" sentinel,
an output file containing all three markers — here with the line `real -1` —
parses to the sentinel value and produces no CSV row even though every marker
is present. -/
theorem C10_sentinel_collision :
    (containsSub real_marker "real -1".data = true ∧
     containsSub sys_marker "sys 0.45".data = true ∧
     containsSub user_marker "user 0.67".data = true) ∧
    extract_timing ["real -1".data, "sys 0.45".data, "user 0.67".data] = Except.ok none ∧
    row_written ["real -1".data, "sys 0.45".data, "user 0.67".data] = false := by
  decide

end PRISM

/-! ### Model validation on concrete inputs -/
example : PRISM.replaceAll "ab".data "X".data "zabab".data = "zXX".data := by decide
example : PRISM.countNO "aa".data "aaaa".data = 2 := by decide
example : PRISM.countOcc "aa".data "aaaa".data = 3 := by decide
example : PRISM.containsSub "ab".data "zab".data = true := by decide
example : PRISM.parseDec "1.23".data = some ⟨123, 2⟩ := by decide
example : PRISM.parseDec "-1".data = some ⟨-1, 0⟩ := by decide
example : PRISM.parseDec "0.45".data = some ⟨45, 2⟩ := by decide
example : PRISM.parseDec "abc".data = none := by decide
example : PRISM.PyFloat.eqv ⟨-10, 1⟩ PRISM.negOne = true := by decide
example : PRISM.PyFloat.eqv ⟨123, 2⟩ PRISM.negOne = false := by decide
example : PRISM.strOfInt 32 = "32".data := by decide
example : PRISM.strOfInt (-7) = "-7".data := by decide
example : PRISM.strOfInt 0 = "0".data := by decide
example : PRISM.joinNL ["ab".data, "c".data, "".data] = "ab\nc\n".data := by decide
example : PRISM.create_benchmark 32 "shared".data =
    "#!/bin/sh\nsbatch cpus=32 part=shared\nend\n".data := by decide
example : PRISM.countbmsrunning "a tf2-train-cnn b\ntf2-train-cnn".data = 2 := by decide
example : PRISM.extract_timing ["real 1.23".data, "sys 0.45".data, "user 0.67".data] =
    Except.ok (some (⟨123, 2⟩, ⟨45, 2⟩, ⟨67, 2⟩)) := by decide
example : PRISM.extract_timing ["real -1".data, "sys 0.45".data, "user 0.67".data] =
    Except.ok none := by decide
example : PRISM.extract_timing ["sys 0.45".data, "user 0.67".data] =
    Except.ok none := by decide
example :
    PRISM.create_datasets 10 PRISM.expected_shapes =
      Except.ok (([50000, 32, 32, 3], [50000, 1]), ([10000, 32, 32, 3], [10000, 1])) := by decide
example : PRISM.upperStr "cpu" = "CPU" := by decide
example : (PRISM.main_run ⟨10, "fp32", 42, 256, "auto", 0, "", "onnx"⟩ PRISM.expected_shapes).2 =
    some PRISM.type_error_msg := by decide
